import Mathlib

/-!
Verification of the Degree-Planner requirement-evaluation engine
(`api/requirements_eval.py`, rule data in `api/requirements.py`).

Modelling conventions (shallow embedding):
* Python strings are lists of Unicode code points (`PyStr := List Nat`);
  `pyCodes` converts a Lean string literal to this representation.
* Python floats (credit values) are modelled as exact integers `Int`: the
  engine only ever adds, subtracts, compares and clamps credit values, so
  every property stated here is about that exact arithmetic; a planned
  course's `credits` field is `Option Int`, where `none` stands for a value
  (missing / `None` / non-numeric) that the `float(...)` coercion turns
  into `0.0`.
* Python sets are modelled as insertion-ordered duplicate-free lists
  (only membership and cardinality are observed by the program).
* Python dicts keyed by strings are modelled as functions to `Option`.
* A Python `KeyError` escaping from a catalog lookup is modelled as
  `Except.error (EvalError.notFound key)` (the spec's `NotFoundError`).
-/

deriving instance DecidableEq for Except

namespace DegreePlanner

/-- Python strings, as lists of Unicode code points. -/
abbrev PyStr := List Nat

/-- Convert a Lean string literal to the code-point model. -/
def pyCodes (s : String) : PyStr := s.data.map Char.toNat

/-- Python `str.split()` whitespace (ASCII part: space, \t, \n, \r, \v, \f). -/
def isPySpace (c : Nat) : Bool :=
  c == 32 || c == 9 || c == 10 || c == 13 || c == 11 || c == 12

/-- ASCII uppercasing of one code point (model of Python `str.upper`). -/
def upperChar (c : Nat) : Nat := if 97 ≤ c ∧ c ≤ 122 then c - 32 else c

/-- Python `s.upper()`. -/
def pyUpper (s : PyStr) : PyStr := s.map upperChar

/-- Python `s.strip()`: drop leading and trailing whitespace. -/
def pyStrip (s : PyStr) : PyStr :=
  ((s.dropWhile isPySpace).reverse.dropWhile isPySpace).reverse

/-- Worker for `pySplit`: `acc` holds the reversed current word. -/
def splitAux : PyStr → PyStr → List PyStr
  | [], acc => if acc = [] then [] else [acc.reverse]
  | c :: rest, acc =>
    if isPySpace c then
      if acc = [] then splitAux rest [] else acc.reverse :: splitAux rest []
    else splitAux rest (c :: acc)

/-- Python `s.split()` with no argument: maximal runs of non-whitespace. -/
def pySplit (s : PyStr) : List PyStr := splitAux s []

/-- Python `" ".join(ws)`. -/
def joinSpace : List PyStr → PyStr
  | [] => []
  | [w] => w
  | w :: ws => w ++ 32 :: joinSpace ws

/-- `_squash_spaces` from `requirements_eval.py`: `" ".join(s.split())`. -/
def squash_spaces (s : PyStr) : PyStr := joinSpace (pySplit s)

/-- The `ALIASES` cross-listing table from `requirements.py`. -/
def ALIASES : List (PyStr × PyStr) :=
  [ (pyCodes "COMP SCI/ECE 354", pyCodes "COMP SCI 354"),
    (pyCodes "COMP SCI/ECE 252", pyCodes "COMP SCI 252"),
    (pyCodes "STAT/MATH 309", pyCodes "STAT 309"),
    (pyCodes "COMP SCI/I SY E/MATH 425", pyCodes "COMP SCI 425"),
    (pyCodes "COMP SCI/ECE/I SY E 524", pyCodes "COMP SCI 524"),
    (pyCodes "COMP SCI/I SY E/MATH/STAT 525", pyCodes "COMP SCI 525"),
    (pyCodes "COMP SCI/DS 579", pyCodes "COMP SCI 579"),
    (pyCodes "COMP SCI/ECE/ME 539", pyCodes "COMP SCI 539"),
    (pyCodes "COMP SCI/ECE 533", pyCodes "COMP SCI 533"),
    (pyCodes "COMP SCI/ECE 552", pyCodes "COMP SCI 552"),
    (pyCodes "COMP SCI/STAT 471", pyCodes "COMP SCI 471"),
    (pyCodes "COMP SCI/MATH/STAT 475", pyCodes "COMP SCI 475") ]

/-- Python `ALIASES.get(u, u)`. -/
def aliasGet (u : PyStr) : PyStr :=
  match ALIASES.find? (fun p => decide (p.1 = u)) with
  | some p => p.2
  | none => u

/-- `normalize_code` from `requirements_eval.py`: empty-check, uppercase,
strip, squash spaces, alias lookup. -/
def normalize_code (s : PyStr) : PyStr :=
  if s = [] then [] else aliasGet (squash_spaces (pyStrip (pyUpper s)))

example : normalize_code (pyCodes "Comp Sci/ECE 354") = pyCodes "COMP SCI 354" := by decide
example : normalize_code (pyCodes "  math   222 ") = pyCodes "MATH 222" := by decide
example : normalize_code (pyCodes "") = pyCodes "" := by decide

/-! ## User catalog (`build_user_catalog`) -/

/-- One record of the user's `plannedCourses` list.  `code = none` models a
JSON `null` code; `credits = none` models a missing / `null` / non-numeric
credits value (anything Python's `float(...)` coercion turns into `0.0`). -/
structure PlannedCourse where
  code : Option PyStr
  credits : Option Int

/-- Python `str(x)` applied to the `code` field: `str(None) = "None"`,
a string is unchanged. -/
def pyStr : Option PyStr → PyStr
  | none => pyCodes "None"
  | some s => s

/-- The credits coercion in `build_user_catalog`: numeric values pass through,
`None` / missing / non-numeric become `0.0`. -/
def pyFloat : Option Int → Int
  | none => 0
  | some q => q

/-- Python `x or 0` applied to an optional credit value (`None` and `0`
are falsy, so both become `0`; any other number is returned). -/
def pyOrZero : Option Int → Int
  | none => 0
  | some q => if q = 0 then 0 else q

/-- `set.add` on the insertion-ordered-list model of a Python set. -/
def insertIfAbsent (x : PyStr) (l : List PyStr) : List PyStr :=
  if x ∈ l then l else l ++ [x]

/-- The pair returned by `build_user_catalog`: the set `user_codes` and the
dict `user_credits`. -/
structure UserCatalog where
  codes : List PyStr
  credits : PyStr → Option Int

/-- The loop body of `build_user_catalog`: normalize the course's code, add
it to `user_codes` and record its (coerced) credits in `user_credits`. -/
def buildStep (uc : UserCatalog) (c : PlannedCourse) : UserCatalog :=
  let norm := normalize_code (pyStr c.code)
  { codes := insertIfAbsent norm uc.codes,
    credits := fun k => if k = norm then some (pyFloat c.credits) else uc.credits k }

/-- `build_user_catalog` from `requirements_eval.py`. -/
def build_user_catalog (planned : List PlannedCourse) : UserCatalog :=
  planned.foldl buildStep { codes := [], credits := fun _ => none }

/-- Python `user_credits.get(code, fallback)`. -/
def dictGet (credits : PyStr → Option Int) (code : PyStr) (fallback : Int) : Int :=
  match credits code with
  | some v => v
  | none => fallback

/-! ## Rule catalog data model (`requirements.py`) -/

/-- An `{"code": ..., "credits": ...}` item of the rule catalog; the same
shape is used for the `taken` / `missing` entries the evaluators build. -/
structure CourseRef where
  code : PyStr
  credits : Option Int
deriving DecidableEq

/-- An entry of a ONE_OF section's `options` list. -/
inductive OneOfOption
  | course (code : PyStr) (credits : Option Int)
  | allOf (items : List CourseRef)
deriving DecidableEq

/-- A section's rule: the `type` tag together with its payload.  The rule
catalog only contains these three tags, so the `else` branch of
`evaluate_major` (unknown type) is unreachable on this model. -/
inductive SectionRule
  | allOf (items : List CourseRef)
  | oneOf (options : List OneOfOption)
  | nOf (n : Nat) (items : List CourseRef)
deriving DecidableEq

/-- One element of a major's `sections` list. -/
structure SectionDef where
  id : String
  title : Option String
  rule : SectionRule
deriving DecidableEq

/-- A value of `MAJOR_REQUIREMENTS`. -/
structure MajorDef where
  id : String
  college : Option String
  total_major_credits : Int
  sections : List SectionDef
deriving DecidableEq

/-- A value of `DEGREE_REQUIREMENTS` (the `gen_ed` / `ls_specific` label
blocks are informational pass-through and are not modelled). -/
structure DegreeDef where
  id : String
  total_degree_credits : Int
deriving DecidableEq

/-! ## Section evaluators -/

/-- Section / evaluation status strings. -/
inductive PyStatus
  | complete
  | in_progress
  | missing
deriving DecidableEq

/-- The `selected_option` descriptor a ONE_OF evaluation returns: `noneOpt`
is the initial `None`, `courseOpt` a `{"type": "COURSE", "code": ...}` dict,
`allOfOpt` a `{"type": "ALL_OF", "items": [...]}` dict and `allOfPartialOpt`
the item-less `{"type": "ALL_OF"}` dict used for partial matches. -/
inductive SelOpt
  | noneOpt
  | courseOpt (code : PyStr)
  | allOfOpt (items : List PyStr)
  | allOfPartialOpt
deriving DecidableEq

/-- The result dict of a section evaluator.  `selected_option` is only set
by ONE_OF, `n_required` / `n_completed` only by N_OF; the other evaluators
leave the defaults (absent keys in Python). -/
structure EvalResult where
  status : PyStatus
  taken : List CourseRef
  missing : List CourseRef
  credited_codes : List PyStr
  credits_earned : Int
  selected_option : SelOpt := SelOpt.noneOpt
  n_required : Nat := 0
  n_completed : Nat := 0
deriving DecidableEq

/-- `eval_all_of`: the partition loop's `taken` list (normalized codes of
items the user has, with the item's declared credits). -/
def allOfTaken (items : List CourseRef) (user_codes : List PyStr) : List CourseRef :=
  items.filterMap fun it =>
    let code := normalize_code it.code
    if code ∈ user_codes then some ⟨code, it.credits⟩ else none

/-- `eval_all_of`: the partition loop's `missing` list. -/
def allOfMissing (items : List CourseRef) (user_codes : List PyStr) : List CourseRef :=
  items.filterMap fun it =>
    let code := normalize_code it.code
    if code ∈ user_codes then none else some ⟨code, it.credits⟩

/-- A Python set built by adding the elements of `l` in order, as an
insertion-ordered duplicate-free list. -/
def dedupFirst (l : List PyStr) : List PyStr :=
  l.foldl (fun acc x => insertIfAbsent x acc) []

/-- `eval_all_of` from `requirements_eval.py`. -/
def eval_all_of (items : List CourseRef) (user_codes : List PyStr)
    (user_credits : PyStr → Option Int) : EvalResult :=
  let taken := allOfTaken items user_codes
  let missing := allOfMissing items user_codes
  let credited_codes := dedupFirst (taken.map (fun t => t.code))
  let status := if missing = [] then PyStatus.complete
    else if taken ≠ [] then PyStatus.in_progress else PyStatus.missing
  -- the credits loop prefers the user's own credit value; its fallback
  -- `t.get("credits", 0)` followed by the `None` check is `pyFloat t.credits`
  let credits_earned := (taken.map fun t => dictGet user_credits t.code (pyFloat t.credits)).sum
  { status, taken, missing, credited_codes, credits_earned }

/-- The tuple `_score_all_of` returns. -/
structure ScoreResult where
  matchCount : Nat
  taken : List CourseRef
  missing : List CourseRef
  credited : List PyStr
deriving DecidableEq

/-- `_score_all_of` from `requirements_eval.py`. -/
def score_all_of (option_items : List CourseRef) (user_codes : List PyStr) : ScoreResult :=
  let taken := allOfTaken option_items user_codes
  { matchCount := taken.length,
    taken,
    missing := allOfMissing option_items user_codes,
    credited := dedupFirst (taken.map (fun t => t.code)) }

/-- The `best` dict `eval_one_of` threads through its loop (`matchCount`
starts at `-1`; the constant `complete: False` entry is never read and is
not modelled). -/
structure BestPartial where
  matchCount : Int
  taken : List CourseRef
  missing : List CourseRef
  credited : List PyStr
  selected_option : SelOpt
deriving DecidableEq

/-- The initial `best` value of `eval_one_of`. -/
def initialBest : BestPartial :=
  { matchCount := -1, taken := [], missing := [], credited := [],
    selected_option := SelOpt.noneOpt }

/-- The code after `eval_one_of`'s loop: derive the status from
`best["match"]` and sum credits over the best partial `taken` list. -/
def one_of_finalize (best : BestPartial) (user_credits : PyStr → Option Int) : EvalResult :=
  let status := if best.matchCount = 0 then PyStatus.missing
    else if 0 < best.matchCount then PyStatus.in_progress else PyStatus.missing
  let credits_earned :=
    (best.taken.map fun t => dictGet user_credits t.code (pyOrZero t.credits)).sum
  { status, taken := best.taken, missing := best.missing,
    credited_codes := best.credited, credits_earned,
    selected_option := best.selected_option }

/-- The option loop of `eval_one_of` (early `return`s modelled by returning
out of the recursion). -/
def one_of_loop (options : List OneOfOption) (user_codes : List PyStr)
    (user_credits : PyStr → Option Int) (best : BestPartial) : EvalResult :=
  match options with
  | [] => one_of_finalize best user_credits
  | OneOfOption.course rawCode credits :: rest =>
    let code := normalize_code rawCode
    if code ∈ user_codes then
      { status := PyStatus.complete,
        taken := [⟨code, credits⟩],
        missing := [],
        credited_codes := [code],
        credits_earned := dictGet user_credits code (pyOrZero credits),
        selected_option := SelOpt.courseOpt code }
    else
      one_of_loop rest user_codes user_credits
        (if best.matchCount < 0 then
          { matchCount := 0, taken := [], missing := [⟨code, credits⟩],
            credited := [], selected_option := SelOpt.courseOpt code }
         else best)
  | OneOfOption.allOf items :: rest =>
    let sc := score_all_of items user_codes
    if sc.missing = [] then
      { status := PyStatus.complete,
        taken := sc.taken,
        missing := [],
        credited_codes := sc.credited,
        credits_earned :=
          (sc.taken.map fun t => dictGet user_credits t.code (pyOrZero t.credits)).sum,
        selected_option := SelOpt.allOfOpt (sc.taken.map (fun t => t.code)) }
    else
      one_of_loop rest user_codes user_credits
        (if (sc.matchCount : Int) > best.matchCount then
          { matchCount := sc.matchCount, taken := sc.taken, missing := sc.missing,
            credited := sc.credited, selected_option := SelOpt.allOfPartialOpt }
         else best)

/-- `eval_one_of` from `requirements_eval.py`. -/
def eval_one_of (options : List OneOfOption) (user_codes : List PyStr)
    (user_credits : PyStr → Option Int) : EvalResult :=
  one_of_loop options user_codes user_credits initialBest

/-- `eval_n_of` from `requirements_eval.py`.  The catalog's `n` values are
nonnegative, so `n` is a natural number and `remaining_needed`'s
`max(n - len(present), 0)` is truncated subtraction. -/
def eval_n_of (n : Nat) (items : List CourseRef) (user_codes : List PyStr)
    (user_credits : PyStr → Option Int) : EvalResult :=
  let present := allOfTaken items user_codes
  let absent := allOfMissing items user_codes
  let credited_slice := present.take n
  let credited_codes := dedupFirst (credited_slice.map (fun t => t.code))
  let credits_earned :=
    (credited_slice.map fun t => dictGet user_credits t.code (pyOrZero t.credits)).sum
  let remaining_needed := n - present.length
  let missing := if 0 < remaining_needed then absent.take remaining_needed else []
  let status := if remaining_needed = 0 then PyStatus.complete
    else if present ≠ [] then PyStatus.in_progress else PyStatus.missing
  { status, taken := present, missing, credited_codes, credits_earned,
    n_required := n, n_completed := min present.length n }

/-! ## Orchestrators (`evaluate_major`, `evaluate_degree`) -/

/-- The `if/elif` dispatch on `sec["type"]` in `evaluate_major`. -/
def evalSection (rule : SectionRule) (user_codes : List PyStr)
    (user_credits : PyStr → Option Int) : EvalResult :=
  match rule with
  | SectionRule.allOf items => eval_all_of items user_codes user_credits
  | SectionRule.oneOf options => eval_one_of options user_codes user_credits
  | SectionRule.nOf n items => eval_n_of n items user_codes user_credits

/-- The `sec["type"]` string of a rule. -/
def ruleType : SectionRule → String
  | SectionRule.allOf _ => "ALL_OF"
  | SectionRule.oneOf _ => "ONE_OF"
  | SectionRule.nOf _ _ => "N_OF"

/-- The per-section deduplication loop of `evaluate_major`: walk a section's
`credited_codes`, count each code not yet in `used_codes` at the user's
credit value (`user_credits.get(code, 0.0)`) and mark it used.  Returns the
section's deduplicated credits and the grown `used_codes` set. -/
def dedupCredits (codes : List PyStr) (user_credits : PyStr → Option Int)
    (used : List PyStr) : Int × List PyStr :=
  match codes with
  | [] => (0, used)
  | c :: cs =>
    if c ∈ used then dedupCredits cs user_credits used
    else
      let r := dedupCredits cs user_credits (used ++ [c])
      ((user_credits c).getD 0 + r.1, r.2)

/-- One entry of the `sections` list of a major progress report. -/
structure SectionReport where
  id : String
  title : Option String
  stype : String
  status : PyStatus
  taken : List CourseRef
  missing : List CourseRef
  credits_earned : Int
deriving DecidableEq

/-- The section loop of `evaluate_major`: evaluate each section, dedup its
credited codes against `used_codes`, emit the cleaned section result and
accumulate the major total. -/
def runSections (secs : List SectionDef) (user_codes : List PyStr)
    (user_credits : PyStr → Option Int) (used : List PyStr) :
    List SectionReport × Int × List PyStr :=
  match secs with
  | [] => ([], 0, used)
  | sec :: rest =>
    let res := evalSection sec.rule user_codes user_credits
    let dc := dedupCredits res.credited_codes user_credits used
    let tail := runSections rest user_codes user_credits dc.2
    ({ id := sec.id, title := sec.title, stype := ruleType sec.rule,
       status := res.status, taken := res.taken, missing := res.missing,
       credits_earned := dc.1 } :: tail.1,
     dc.1 + tail.2.1, tail.2.2)

/-- The dict `evaluate_major` returns. -/
structure MajorReport where
  id : String
  major_key : String
  sections : List SectionReport
  major_credits_earned : Int
  major_credits_target : Int
  remaining_credits : Int
  college_key : Option String
deriving DecidableEq

/-- A Python `KeyError` escaping a catalog lookup — the `NotFoundError`
of the specification. -/
inductive EvalError
  | notFound (key : String)
deriving DecidableEq

/-- The dict `evaluate_degree` returns (informational `gen_ed` /
`ls_specific` label blocks not modelled). -/
structure DegreeReport where
  id : String
  total_degree_credits : Int
  credits_completed : Int
  credits_remaining : Int
deriving DecidableEq

/-! ### Static rule data (`requirements.py`) -/

/-- The `"CS_LS"` entry of `MAJOR_REQUIREMENTS`. -/
def CS_LS : MajorDef :=
  { id := "Computer Science (L&S)",
    college := some "L&S_BS",
    total_major_credits := 48,
    sections :=
      [ { id := "basic_cs", title := some "Basic Computer Sciences",
          rule := SectionRule.allOf
            [ ⟨pyCodes "MATH/COMP SCI 240", some 3⟩,
              ⟨pyCodes "COMP SCI/E C E 252", some 3⟩,
              ⟨pyCodes "COMP SCI 300", some 3⟩,
              ⟨pyCodes "COMP SCI/E C E 354", some 3⟩,
              ⟨pyCodes "COMP SCI 400", some 3⟩ ] },
        { id := "basic_calculus", title := some "Basic Calculus (sequence)",
          rule := SectionRule.oneOf
            [ OneOfOption.allOf
                [ ⟨pyCodes "MATH 221", some 5⟩, ⟨pyCodes "MATH 222", some 4⟩ ],
              OneOfOption.allOf
                [ ⟨pyCodes "MATH 171", some 5⟩, ⟨pyCodes "MATH 217", some 4⟩,
                  ⟨pyCodes "MATH 222", some 4⟩ ] ] },
        { id := "linear_algebra",
          title := some "Additional Mathematics (Linear Algebra)",
          rule := SectionRule.oneOf
            [ OneOfOption.course (pyCodes "MATH 320") (some 3),
              OneOfOption.course (pyCodes "MATH 340") (some 3),
              OneOfOption.course (pyCodes "MATH 345") (some 4),
              OneOfOption.course (pyCodes "MATH 341") (some 3),
              OneOfOption.course (pyCodes "MATH 375") (some 5) ] },
        { id := "prob_or_stats", title := some "Probability or Statistics",
          rule := SectionRule.oneOf
            [ OneOfOption.course (pyCodes "STAT/MATH 309") (some 3),
              OneOfOption.course (pyCodes "STAT 311") (some 3),
              OneOfOption.course (pyCodes "STAT 324") (some 3),
              OneOfOption.course (pyCodes "MATH 331") (some 3),
              OneOfOption.course (pyCodes "STAT 333") (some 3),
              OneOfOption.course (pyCodes "STAT 340") (some 4),
              OneOfOption.course (pyCodes "STAT 371") (some 3),
              OneOfOption.course (pyCodes "STAT/MATH 431") (some 3),
              OneOfOption.course (pyCodes "MATH 531") (some 3) ] },
        { id := "theory", title := some "Advanced CS: Theory of Computer Science",
          rule := SectionRule.oneOf
            [ OneOfOption.course (pyCodes "COMP SCI 577") (some 3),
              OneOfOption.course (pyCodes "COMP SCI 520") (some 3) ] },
        { id := "software_hardware",
          title := some "Advanced CS: Software & Hardware (pick two)",
          rule := SectionRule.nOf 2
            [ ⟨pyCodes "COMP SCI 407", some 3⟩,
              ⟨pyCodes "COMP SCI/E C E 506", some 3⟩,
              ⟨pyCodes "COMP SCI 536", some 3⟩,
              ⟨pyCodes "COMP SCI 538", some 3⟩,
              ⟨pyCodes "COMP SCI 537", some 3⟩,
              ⟨pyCodes "COMP SCI 542", some 3⟩,
              ⟨pyCodes "COMP SCI 544", some 3⟩,
              ⟨pyCodes "COMP SCI/E C E 552", some 3⟩,
              ⟨pyCodes "COMP SCI 557", some 3⟩,
              ⟨pyCodes "COMP SCI 564", some 3⟩,
              ⟨pyCodes "COMP SCI 640", some 3⟩,
              ⟨pyCodes "COMP SCI 642", some 3⟩ ] },
        { id := "applications", title := some "Applications (pick one)",
          rule := SectionRule.oneOf
            [ OneOfOption.course (pyCodes "COMP SCI 412") (some 3),
              OneOfOption.course (pyCodes "COMP SCI/I SY E/MATH 425") (some 3),
              OneOfOption.course (pyCodes "COMP SCI/MATH 513") (some 3),
              OneOfOption.course (pyCodes "COMP SCI/MATH 514") (some 3),
              OneOfOption.course (pyCodes "COMP SCI/E C E/I SY E 524") (some 3),
              OneOfOption.course (pyCodes "COMP SCI/I SY E/MATH/STAT 525") (some 3),
              OneOfOption.course (pyCodes "COMP SCI 534") (some 3),
              OneOfOption.course (pyCodes "COMP SCI 540") (some 3),
              OneOfOption.course (pyCodes "COMP SCI 541") (some 3),
              OneOfOption.course (pyCodes "COMP SCI 559") (some 3),
              OneOfOption.course (pyCodes "COMP SCI 565") (some 3),
              OneOfOption.course (pyCodes "COMP SCI 566") (some 3),
              OneOfOption.course (pyCodes "COMP SCI 570") (some 3),
              OneOfOption.course (pyCodes "COMP SCI 571") (some 3) ] },
        { id := "electives", title := some "Electives (pick two)",
          rule := SectionRule.nOf 2
            [ ⟨pyCodes "COMP SCI 407", some 3⟩,
              ⟨pyCodes "COMP SCI 412", some 3⟩,
              ⟨pyCodes "COMP SCI/E C E/MATH 435", some 3⟩,
              ⟨pyCodes "COMP SCI/STAT 471", some 3⟩,
              ⟨pyCodes "COMP SCI/MATH/STAT 475", some 3⟩,
              ⟨pyCodes "COMP SCI/E C E 506", some 3⟩,
              ⟨pyCodes "COMP SCI/M E/E C E 532", some 3⟩,
              ⟨pyCodes "COMP SCI/E C E 533", some 3⟩,
              ⟨pyCodes "COMP SCI 534", some 3⟩,
              ⟨pyCodes "COMP SCI 536", some 3⟩,
              ⟨pyCodes "COMP SCI 537", some 3⟩,
              ⟨pyCodes "COMP SCI 538", some 3⟩,
              ⟨pyCodes "COMP SCI/E C E/M E 539", some 3⟩,
              ⟨pyCodes "COMP SCI 540", some 3⟩,
              ⟨pyCodes "COMP SCI 541", some 3⟩,
              ⟨pyCodes "COMP SCI 542", some 3⟩,
              ⟨pyCodes "COMP SCI 544", some 3⟩,
              ⟨pyCodes "COMP SCI/E C E 552", some 3⟩,
              ⟨pyCodes "COMP SCI 557", some 3⟩,
              ⟨pyCodes "COMP SCI 564", some 3⟩,
              ⟨pyCodes "COMP SCI 565", some 3⟩,
              ⟨pyCodes "COMP SCI 566", some 3⟩,
              ⟨pyCodes "COMP SCI 579", some 3⟩,
              ⟨pyCodes "COMP SCI 639", some 3⟩,
              ⟨pyCodes "COMP SCI 640", some 3⟩,
              ⟨pyCodes "COMP SCI 642", some 3⟩ ] } ] }

/-- `MAJOR_REQUIREMENTS` from `requirements.py`, as an association list. -/
def MAJOR_REQUIREMENTS : List (String × MajorDef) := [("CS_LS", CS_LS)]

/-- `DEGREE_REQUIREMENTS` from `requirements.py`, as an association list. -/
def DEGREE_REQUIREMENTS : List (String × DegreeDef) :=
  [("L&S_BS", { id := "L&S_BS", total_degree_credits := 120 })]

/-- `evaluate_major` from `requirements_eval.py`.  The Python dict indexing
`MAJOR_REQUIREMENTS[major_key]` raises `KeyError` for an unknown key, which
is modelled as `Except.error`. -/
def evaluate_major (major_key : String) (planned : List PlannedCourse) :
    Except EvalError MajorReport :=
  match MAJOR_REQUIREMENTS.find? (fun p => p.1 == major_key) with
  | none => Except.error (EvalError.notFound major_key)
  | some p =>
    let major := p.2
    let uc := build_user_catalog planned
    let run := runSections major.sections uc.codes uc.credits []
    let target := major.total_major_credits
    let remaining := target - run.2.1
    Except.ok
      { id := major.id,
        major_key,
        sections := run.1,
        major_credits_earned := run.2.1,
        major_credits_target := target,
        remaining_credits := if remaining < 0 then 0 else remaining,
        college_key := major.college }

/-- `evaluate_degree` from `requirements_eval.py`, with the same `KeyError`
model for an unknown college key.  The credit sum loop coerces missing /
`None` / non-numeric credit values to `0.0` via `pyFloat`. -/
def evaluate_degree (college_key : String) (planned : List PlannedCourse) :
    Except EvalError DegreeReport :=
  match DEGREE_REQUIREMENTS.find? (fun p => p.1 == college_key) with
  | none => Except.error (EvalError.notFound college_key)
  | some p =>
    let college := p.2
    let total_user_credits := planned.foldl (fun acc c => acc + pyFloat c.credits) 0
    let target := college.total_degree_credits
    let remaining := target - total_user_credits
    Except.ok
      { id := college.id,
        total_degree_credits := target,
        credits_completed := total_user_credits,
        credits_remaining := if remaining < 0 then 0 else remaining }

/-! ## Specification-side definitions

These definitions restate, in the spec's own vocabulary, the quantities the
claims talk about; the theorems below relate them to the implementation. -/

/-- An option of a ONE_OF section is fully satisfiable: a `COURSE` option
whose normalized code the user has, or an `ALL_OF` option none of whose
items is missing. -/
def optSatisfied (o : OneOfOption) (user_codes : List PyStr) : Prop :=
  match o with
  | OneOfOption.course code _ => normalize_code code ∈ user_codes
  | OneOfOption.allOf items => allOfMissing items user_codes = []

instance (o : OneOfOption) (user_codes : List PyStr) :
    Decidable (optSatisfied o user_codes) := by
  unfold optSatisfied
  cases o <;> infer_instance

/-- The matched-item count of a ONE_OF option: an unsatisfied `COURSE`
option counts as 0 matches, an `ALL_OF` option counts its matched items. -/
def optScore (o : OneOfOption) (user_codes : List PyStr) : Nat :=
  match o with
  | OneOfOption.course _ _ => 0
  | OneOfOption.allOf items => (score_all_of items user_codes).matchCount

/-- The `taken` list a ONE_OF partial result reports for an option. -/
def optTakenList (o : OneOfOption) (user_codes : List PyStr) : List CourseRef :=
  match o with
  | OneOfOption.course _ _ => []
  | OneOfOption.allOf items => (score_all_of items user_codes).taken

/-- The `missing` list a ONE_OF partial result reports for an option. -/
def optMissingList (o : OneOfOption) (user_codes : List PyStr) : List CourseRef :=
  match o with
  | OneOfOption.course code credits => [⟨normalize_code code, credits⟩]
  | OneOfOption.allOf items => (score_all_of items user_codes).missing

/-- The credited-code list a ONE_OF partial result reports for an option. -/
def optCreditedList (o : OneOfOption) (user_codes : List PyStr) : List PyStr :=
  match o with
  | OneOfOption.course _ _ => []
  | OneOfOption.allOf items => (score_all_of items user_codes).credited

/-- One step of the `best`-tracking in `eval_one_of`'s loop, for an option
that does not short-circuit: an unsatisfied `COURSE` option seeds `best`
only while no candidate exists (`matchCount < 0`), an incomplete `ALL_OF`
option replaces `best` only on a strictly higher match count. -/
def bestStep (user_codes : List PyStr) (best : BestPartial) (o : OneOfOption) : BestPartial :=
  match o with
  | OneOfOption.course code credits =>
    if best.matchCount < 0 then
      { matchCount := 0, taken := [], missing := [⟨normalize_code code, credits⟩],
        credited := [], selected_option := SelOpt.courseOpt (normalize_code code) }
    else best
  | OneOfOption.allOf items =>
    let sc := score_all_of items user_codes
    if (sc.matchCount : Int) > best.matchCount then
      { matchCount := sc.matchCount, taken := sc.taken, missing := sc.missing,
        credited := sc.credited, selected_option := SelOpt.allOfPartialOpt }
    else best

/-- The `selected_option` descriptor a ONE_OF partial result reports for an
option. -/
def optSelected (o : OneOfOption) : SelOpt :=
  match o with
  | OneOfOption.course c _ => SelOpt.courseOpt (normalize_code c)
  | OneOfOption.allOf _ => SelOpt.allOfPartialOpt

/-- The codes of `l` that are not in `used`, first occurrence only — the
spec's "the first time a code is seen across the whole evaluation". -/
def newCodes (l : List PyStr) (used : List PyStr) : List PyStr :=
  match l with
  | [] => []
  | c :: cs => if c ∈ used then newCodes cs used else c :: newCodes cs (used ++ [c])

/-- Sum of the user's own credit values (`user_credits.get(code, 0.0)`)
over a list of codes. -/
def userSumList (user_credits : PyStr → Option Int) (codes : List PyStr) : Int :=
  (codes.map fun c => (user_credits c).getD 0).sum

/-- Spec wording for the cross-section dedup: given the per-section
credited-code lists in declaration order, each section earns the user's
credit value of exactly those of its codes that no earlier section (nor an
earlier position of the same section) credited. -/
def firstTimeCredits (creditedLists : List (List PyStr))
    (user_credits : PyStr → Option Int) (seen : List PyStr) : List Int :=
  match creditedLists with
  | [] => []
  | l :: ls =>
    userSumList user_credits (newCodes l seen) ::
      firstTimeCredits ls user_credits (seen ++ newCodes l seen)

/-- The per-section credited-code lists of a major evaluation, in
declaration order. -/
def creditedLists (major : MajorDef) (uc : UserCatalog) : List (List PyStr) :=
  major.sections.map fun sec => (evalSection sec.rule uc.codes uc.credits).credited_codes

/-- All raw course codes a major's rule catalog mentions (section items,
`COURSE` options and the items of `ALL_OF` options). -/
def majorItemCodes (major : MajorDef) : List PyStr :=
  major.sections.flatMap fun sec =>
    match sec.rule with
    | SectionRule.allOf items => items.map (fun it => it.code)
    | SectionRule.oneOf options =>
      options.flatMap fun o =>
        match o with
        | OneOfOption.course code _ => [code]
        | OneOfOption.allOf items => items.map (fun it => it.code)
    | SectionRule.nOf _ items => items.map (fun it => it.code)

/-- The degree orchestrator's credit sum in the spec's wording: the sum over
all planned courses of their credit value, missing/invalid coerced to 0. -/
def sumPlannedCredits (planned : List PlannedCourse) : Int :=
  (planned.map fun c => pyFloat c.credits).sum

/-! ## Lemmas about the code normalizer -/

theorem upperChar_idem (c : Nat) : upperChar (upperChar c) = upperChar c := by
  unfold upperChar
  split_ifs <;> omega

theorem isPySpace_iff (c : Nat) :
    isPySpace c = true ↔ c = 32 ∨ c = 9 ∨ c = 10 ∨ c = 13 ∨ c = 11 ∨ c = 12 := by
  simp [isPySpace, or_assoc]

theorem splitAux_nil (acc : PyStr) :
    splitAux [] acc = if acc = [] then [] else [acc.reverse] := rfl

theorem splitAux_cons_space {c : Nat} (h : isPySpace c = true) (rest acc : PyStr) :
    splitAux (c :: rest) acc =
      if acc = [] then splitAux rest [] else acc.reverse :: splitAux rest [] := by
  simp [splitAux, h]

theorem splitAux_cons_nonspace {c : Nat} (h : isPySpace c = false) (rest acc : PyStr) :
    splitAux (c :: rest) acc = splitAux rest (c :: acc) := by
  simp [splitAux, h]

theorem upperChar_space (c : Nat) (h : isPySpace c = true) : upperChar c = c := by
  rw [isPySpace_iff] at h
  unfold upperChar
  split_ifs with h2
  · omega
  · rfl

theorem upperChar_fix_of_space (c : Nat) (h : c = 32) : upperChar c = c := by
  subst h; decide

/-- Every character produced by `pyUpper` is a fixed point of `upperChar`. -/
theorem mem_pyUpper_fix {c : Nat} {s : PyStr} (h : c ∈ pyUpper s) :
    upperChar c = c := by
  unfold pyUpper at h
  obtain ⟨d, _, rfl⟩ := List.mem_map.mp h
  exact upperChar_idem d

/-- Mapping a function that fixes every member leaves a list unchanged. -/
theorem map_fix {α : Type} {f : α → α} :
    ∀ {l : List α}, (∀ c ∈ l, f c = c) → l.map f = l
  | [], _ => rfl
  | c :: cs, h => by
    simp only [List.map_cons, List.cons.injEq]
    exact ⟨h c (List.mem_cons_self c cs), map_fix fun d hd => h d (List.mem_cons_of_mem c hd)⟩

/-- Words produced by `splitAux` are nonempty and whitespace-free. -/
theorem splitAux_words_ok :
    ∀ (s acc : PyStr), (∀ c ∈ acc, isPySpace c = false) →
      ∀ w ∈ splitAux s acc, w ≠ [] ∧ ∀ c ∈ w, isPySpace c = false
  | [], acc, hacc => by
    rw [splitAux_nil]
    by_cases h : acc = []
    · simp [h]
    · intro w hw
      rw [if_neg h, List.mem_singleton] at hw
      subst hw
      exact ⟨by simpa using h, fun c hc => hacc c (List.mem_reverse.mp hc)⟩
  | c :: rest, acc, hacc => by
    by_cases hsp : isPySpace c
    · rw [splitAux_cons_space hsp]
      by_cases h : acc = []
      · rw [if_pos h]
        exact splitAux_words_ok rest [] (by simp)
      · rw [if_neg h]
        intro w hw
        rcases List.mem_cons.mp hw with rfl | hw
        · exact ⟨by simpa using h, fun d hd => hacc d (List.mem_reverse.mp hd)⟩
        · exact splitAux_words_ok rest [] (by simp) w hw
    · rw [splitAux_cons_nonspace (by simpa using hsp)]
      refine splitAux_words_ok rest (c :: acc) ?_
      intro d hd
      rcases List.mem_cons.mp hd with rfl | hd
      · simpa using hsp
      · exact hacc d hd

/-- Consuming a whitespace-free word moves it into the accumulator. -/
theorem splitAux_word_append :
    ∀ (w rest acc : PyStr), (∀ c ∈ w, isPySpace c = false) →
      splitAux (w ++ rest) acc = splitAux rest (w.reverse ++ acc)
  | [], _, _, _ => by simp
  | c :: w, rest, acc, h => by
    have hc : isPySpace c = false := h c (List.mem_cons_self c w)
    rw [List.cons_append, splitAux_cons_nonspace hc,
      splitAux_word_append w rest (c :: acc) (fun d hd => h d (List.mem_cons_of_mem c hd))]
    simp

/-- Splitting an all-whitespace string only flushes the accumulator. -/
theorem splitAux_all_space :
    ∀ (w acc : PyStr), (∀ c ∈ w, isPySpace c = true) →
      splitAux w acc = if acc = [] then [] else [acc.reverse]
  | [], _, _ => splitAux_nil _
  | c :: w, acc, h => by
    have hc : isPySpace c = true := h c (List.mem_cons_self c w)
    have hw := fun d hd => h d (List.mem_cons_of_mem c hd)
    rw [splitAux_cons_space hc]
    by_cases hacc : acc = []
    · rw [if_pos hacc, if_pos hacc, splitAux_all_space w [] hw, if_pos rfl]
    · rw [if_neg hacc, if_neg hacc, splitAux_all_space w [] hw, if_pos rfl]

/-- Trailing whitespace does not change the split. -/
theorem splitAux_append_space :
    ∀ (s w acc : PyStr), (∀ c ∈ w, isPySpace c = true) →
      splitAux (s ++ w) acc = splitAux s acc
  | [], w, acc, h => by
    rw [List.nil_append, splitAux_all_space w acc h, splitAux_nil]
  | c :: s, w, acc, h => by
    by_cases hc : isPySpace c
    · rw [List.cons_append, splitAux_cons_space hc, splitAux_cons_space hc,
        splitAux_append_space s w [] h]
    · rw [List.cons_append, splitAux_cons_nonspace (by simpa using hc),
        splitAux_cons_nonspace (by simpa using hc),
        splitAux_append_space s w (c :: acc) h]

/-- Leading whitespace does not change the split. -/
theorem pySplit_dropWhile (s : PyStr) :
    pySplit (s.dropWhile isPySpace) = pySplit s := by
  induction s with
  | nil => rfl
  | cons c s ih =>
    by_cases hc : isPySpace c
    · unfold pySplit at ih ⊢
      rw [List.dropWhile_cons_of_pos hc, ih, splitAux_cons_space hc, if_pos rfl]
    · rw [List.dropWhile_cons_of_neg (by simpa using hc)]

/-- `str.strip()` does not change the split (its effect is subsumed by
`str.split()`). -/
theorem pySplit_pyStrip (s : PyStr) : pySplit (pyStrip s) = pySplit s := by
  unfold pyStrip
  set l := s.dropWhile isPySpace with hl
  have hdecomp : l = (l.reverse.dropWhile isPySpace).reverse ++
      (l.reverse.takeWhile isPySpace).reverse := by
    have h := List.takeWhile_append_dropWhile (p := isPySpace) (l := l.reverse)
    calc l = l.reverse.reverse := (List.reverse_reverse l).symm
    _ = (l.reverse.takeWhile isPySpace ++ l.reverse.dropWhile isPySpace).reverse := by rw [h]
    _ = _ := by rw [List.reverse_append]
  have hspace : ∀ c ∈ (l.reverse.takeWhile isPySpace).reverse, isPySpace c = true := by
    intro c hc
    exact List.mem_takeWhile_imp (List.mem_reverse.mp hc)
  calc pySplit (l.reverse.dropWhile isPySpace).reverse
      = splitAux ((l.reverse.dropWhile isPySpace).reverse ++
          (l.reverse.takeWhile isPySpace).reverse) [] :=
        (splitAux_append_space _ _ [] hspace).symm
    _ = splitAux l [] := by rw [← hdecomp]
    _ = pySplit s := pySplit_dropWhile s

/-- Splitting a join of nonempty whitespace-free words recovers the words. -/
theorem pySplit_joinSpace :
    ∀ (ws : List PyStr), (∀ w ∈ ws, w ≠ [] ∧ ∀ c ∈ w, isPySpace c = false) →
      pySplit (joinSpace ws) = ws
  | [], _ => rfl
  | [w], h => by
    obtain ⟨hne, hok⟩ := h w (List.mem_singleton.mpr rfl)
    show splitAux (joinSpace [w]) [] = [w]
    have hj : joinSpace [w] = w ++ [] := by simp [joinSpace]
    rw [hj, splitAux_word_append w [] [] hok, splitAux_nil,
      if_neg (by simpa using hne)]
    simp
  | w :: w2 :: ws, h => by
    obtain ⟨hne, hok⟩ := h w (List.mem_cons_self _ _)
    have hrest : ∀ u ∈ w2 :: ws, u ≠ [] ∧ ∀ c ∈ u, isPySpace c = false :=
      fun u hu => h u (List.mem_cons_of_mem w hu)
    show splitAux (joinSpace (w :: w2 :: ws)) [] = _
    have hjoin : joinSpace (w :: w2 :: ws) = w ++ 32 :: joinSpace (w2 :: ws) := rfl
    rw [hjoin, splitAux_word_append w _ [] hok,
      splitAux_cons_space (by decide : isPySpace 32 = true),
      if_neg (by simpa using hne)]
    have htail : splitAux (joinSpace (w2 :: ws)) [] = w2 :: ws :=
      pySplit_joinSpace (w2 :: ws) hrest
    rw [htail]
    simp

/-- Characters of a join are either the separator space or characters of
one of the words. -/
theorem mem_joinSpace :
    ∀ {c : Nat} {ws : List PyStr}, c ∈ joinSpace ws → c = 32 ∨ ∃ w ∈ ws, c ∈ w := by
  intro c ws h
  induction ws with
  | nil => simp [joinSpace] at h
  | cons w ws ih =>
    cases ws with
    | nil =>
      right
      exact ⟨w, List.mem_singleton.mpr rfl, h⟩
    | cons w2 ws2 =>
      have hjoin : joinSpace (w :: w2 :: ws2) = w ++ 32 :: joinSpace (w2 :: ws2) := rfl
      rw [hjoin] at h
      rcases List.mem_append.mp h with hw | hw
      · exact Or.inr ⟨w, List.mem_cons_self _ _, hw⟩
      · rcases List.mem_cons.mp hw with rfl | hw
        · exact Or.inl rfl
        · rcases ih hw with h32 | ⟨u, hu, hcu⟩
          · exact Or.inl h32
          · exact Or.inr ⟨u, List.mem_cons_of_mem w hu, hcu⟩

/-- Characters of split words come from the string or the accumulator. -/
theorem mem_splitAux :
    ∀ (s acc : PyStr) {w : PyStr} {c : Nat},
      w ∈ splitAux s acc → c ∈ w → c ∈ s ∨ c ∈ acc
  | [], acc, w, c => by
    rw [splitAux_nil]
    by_cases h : acc = []
    · simp [h]
    · rw [if_neg h, List.mem_singleton]
      rintro rfl hc
      exact Or.inr (List.mem_reverse.mp hc)
  | a :: s, acc, w, c => by
    by_cases hsp : isPySpace a
    · rw [splitAux_cons_space hsp]
      by_cases h : acc = []
      · rw [if_pos h]
        intro hw hc
        rcases mem_splitAux s [] hw hc with h1 | h1
        · exact Or.inl (List.mem_cons_of_mem a h1)
        · simp at h1
      · rw [if_neg h]
        intro hw hc
        rcases List.mem_cons.mp hw with rfl | hw
        · exact Or.inr (List.mem_reverse.mp hc)
        · rcases mem_splitAux s [] hw hc with h1 | h1
          · exact Or.inl (List.mem_cons_of_mem a h1)
          · simp at h1
    · rw [splitAux_cons_nonspace (by simpa using hsp)]
      intro hw hc
      rcases mem_splitAux s (a :: acc) hw hc with h1 | h1
      · exact Or.inl (List.mem_cons_of_mem a h1)
      · rcases List.mem_cons.mp h1 with rfl | h1
        · exact Or.inl (List.mem_cons_self _ _)
        · exact Or.inr h1

/-- Characters of `squash_spaces s` are the space or characters of `s`. -/
theorem mem_squash_spaces {c : Nat} {s : PyStr} (h : c ∈ squash_spaces s) :
    c = 32 ∨ c ∈ s := by
  unfold squash_spaces at h
  rcases mem_joinSpace h with h32 | ⟨w, hw, hcw⟩
  · exact Or.inl h32
  · rcases mem_splitAux s [] hw hcw with h1 | h1
    · exact Or.inr h1
    · simp at h1

/-- Characters survive `pyStrip` only from the original string. -/
theorem mem_pyStrip {c : Nat} {s : PyStr} (h : c ∈ pyStrip s) : c ∈ s := by
  unfold pyStrip at h
  have h1 := List.mem_reverse.mp h
  have h2 := (List.dropWhile_sublist (l := (s.dropWhile isPySpace).reverse) isPySpace).subset h1
  have h3 := List.mem_reverse.mp h2
  exact (List.dropWhile_sublist (l := s) isPySpace).subset h3

/-- Every alias target of the `ALIASES` table is a fixed point of
`normalize_code`. -/
theorem alias_targets_fixed : ∀ p ∈ ALIASES, normalize_code p.2 = p.2 := by decide

/-- C7: normalization is idempotent — `normalize_code` trims, collapses
internal whitespace, uppercases and then applies the exact alias lookup, and
applying it twice gives the same canonical code as applying it once, for
every string. -/
theorem normalize_code_idem (s : PyStr) :
    normalize_code (normalize_code s) = normalize_code s := by
  by_cases hs : s = []
  · subst hs; rfl
  · set u := squash_spaces (pyStrip (pyUpper s)) with hu
    have h1 : normalize_code s = aliasGet u := by
      unfold normalize_code
      rw [if_neg hs]
    rw [h1]
    cases hfind : ALIASES.find? (fun p => decide (p.1 = u)) with
    | some p =>
      have hget : aliasGet u = p.2 := by unfold aliasGet; rw [hfind]
      rw [hget]
      exact alias_targets_fixed p (List.mem_of_find?_eq_some hfind)
    | none =>
      have hget : aliasGet u = u := by unfold aliasGet; rw [hfind]
      rw [hget]
      by_cases hu0 : u = []
      · rw [hu0]; rfl
      · unfold normalize_code
        rw [if_neg hu0]
        have hupper : pyUpper u = u := by
          refine map_fix ?_
          intro c hc
          rw [hu] at hc
          rcases mem_squash_spaces hc with rfl | hmem
          · decide
          · exact mem_pyUpper_fix (mem_pyStrip hmem)
        rw [hupper]
        have hwords : pySplit u = pySplit (pyStrip (pyUpper s)) := by
          rw [hu]
          exact pySplit_joinSpace _ (splitAux_words_ok _ [] (by simp))
        have hsquash : squash_spaces (pyStrip u) = u := by
          unfold squash_spaces
          rw [pySplit_pyStrip u, hwords, hu]
          rfl
        rw [hsquash]
        unfold aliasGet
        rw [hfind]

/-! ## Unknown catalog keys (C5) -/

/-- C5: an unknown `major_key` makes `evaluate_major` fail with a
`NotFoundError` (the `KeyError` escaping the dict lookup), and an unknown
`college_key` likewise makes `evaluate_degree` fail with a `NotFoundError`;
nothing is silently defaulted. -/
theorem unknown_key_notFound :
    (∀ (major_key : String) (planned : List PlannedCourse),
      (∀ p ∈ MAJOR_REQUIREMENTS, p.1 ≠ major_key) →
      evaluate_major major_key planned = Except.error (EvalError.notFound major_key)) ∧
    (∀ (college_key : String) (planned : List PlannedCourse),
      (∀ p ∈ DEGREE_REQUIREMENTS, p.1 ≠ college_key) →
      evaluate_degree college_key planned = Except.error (EvalError.notFound college_key)) := by
  constructor
  · intro key planned h
    have hf : MAJOR_REQUIREMENTS.find? (fun p => p.1 == key) = none :=
      List.find?_eq_none.mpr (fun p hp => by simpa using h p hp)
    unfold evaluate_major
    rw [hf]
  · intro key planned h
    have hf : DEGREE_REQUIREMENTS.find? (fun p => p.1 == key) = none :=
      List.find?_eq_none.mpr (fun p hp => by simpa using h p hp)
    unfold evaluate_degree
    rw [hf]

/-- Witness for C5: the key `"NOPE"` is not in the major catalog and
`evaluateMajor("NOPE", [])` fails with `NotFoundError`. -/
theorem unknown_key_notFound_witness :
    (∀ p ∈ MAJOR_REQUIREMENTS, p.1 ≠ "NOPE") ∧
    evaluate_major "NOPE" [] = Except.error (EvalError.notFound "NOPE") :=
  ⟨by decide, unknown_key_notFound.1 "NOPE" [] (by decide)⟩

/-! ## Degree sum and clamp (C8) -/

/-- Folding `+` over mapped values equals the initial value plus the sum. -/
theorem foldl_add_eq_sum {α : Type} (f : α → Int) :
    ∀ (l : List α) (init : Int),
      l.foldl (fun acc c => acc + f c) init = init + (l.map f).sum
  | [], init => by simp
  | c :: cs, init => by
    rw [List.foldl_cons, foldl_add_eq_sum f cs (init + f c)]
    simp [add_assoc]

/-- Clamping via `if` is `max` with zero. -/
theorem clamp_eq_max (x : Int) : (if x < 0 then 0 else x) = max x 0 := by
  split_ifs with h <;> omega

/-- C8: for a college key present in the degree catalog, `credits_completed`
is the plain sum of every planned course's credit value (missing / `None` /
non-numeric coerced to `0.0`), independent of any section matching, and
`credits_remaining` is the degree target minus that sum clamped at zero. -/
theorem evaluate_degree_sum_clamp (college_key : String) (planned : List PlannedCourse)
    (p : String × DegreeDef)
    (hfind : DEGREE_REQUIREMENTS.find? (fun q => q.1 == college_key) = some p) :
    evaluate_degree college_key planned = Except.ok
      { id := p.2.id,
        total_degree_credits := p.2.total_degree_credits,
        credits_completed := sumPlannedCredits planned,
        credits_remaining := max (p.2.total_degree_credits - sumPlannedCredits planned) 0 } := by
  unfold evaluate_degree
  rw [hfind]
  have hsum : planned.foldl (fun acc c => acc + pyFloat c.credits) 0 =
      sumPlannedCredits planned := by
    rw [foldl_add_eq_sum, zero_add]
    rfl
  simp only [hsum, clamp_eq_max]

/-- Witness for C8: degree target 120 with 150 planned credits gives
`credits_remaining = 0` (never negative). -/
theorem evaluate_degree_sum_clamp_witness :
    evaluate_degree "L&S_BS" [⟨some (pyCodes "X"), some 150⟩] = Except.ok
      { id := "L&S_BS", total_degree_credits := 120,
        credits_completed := 150, credits_remaining := 0 } :=
  (evaluate_degree_sum_clamp "L&S_BS" [⟨some (pyCodes "X"), some 150⟩]
    ("L&S_BS", { id := "L&S_BS", total_degree_credits := 120 }) (by decide)).trans
    (by decide)

/-! ## Major report consistency (C10) -/

/-- The major total accumulated by the section loop is the sum of the
per-section `credits_earned` fields it reports. -/
theorem runSections_total (user_codes : List PyStr) (user_credits : PyStr → Option Int) :
    ∀ (secs : List SectionDef) (used : List PyStr),
      (runSections secs user_codes user_credits used).2.1 =
        ((runSections secs user_codes user_credits used).1.map
          fun s => s.credits_earned).sum
  | [], used => by simp [runSections]
  | sec :: rest, used => by
    unfold runSections
    simp only [List.map_cons, List.sum_cons]
    rw [runSections_total user_codes user_credits rest _]

/-- C10: a major report is internally consistent — `major_credits_earned`
equals the sum of the sections' `credits_earned` fields, and
`remaining_credits` is `max(major_credits_target - major_credits_earned, 0)`
(stated for any key: an unknown key makes both sides the same error). -/
theorem evaluate_major_report_consistent (major_key : String)
    (planned : List PlannedCourse) :
    (evaluate_major major_key planned).map
        (fun r => (r.major_credits_earned, r.remaining_credits)) =
      (evaluate_major major_key planned).map
        (fun r => ((r.sections.map fun s => s.credits_earned).sum,
          max (r.major_credits_target - (r.sections.map fun s => s.credits_earned).sum) 0)) := by
  unfold evaluate_major
  cases hfind : MAJOR_REQUIREMENTS.find? (fun p => p.1 == major_key) with
  | none => rfl
  | some p =>
    simp only [Except.map, runSections_total, clamp_eq_max]

/-! ## Cross-section credit deduplication (C1) -/

theorem userSumList_append (user_credits : PyStr → Option Int) (l1 l2 : List PyStr) :
    userSumList user_credits (l1 ++ l2) =
      userSumList user_credits l1 + userSumList user_credits l2 := by
  simp [userSumList]

/-- The dedup loop credits exactly the not-yet-seen codes (first occurrence
only), at the user's own credit value, and marks them used. -/
theorem dedupCredits_eq (user_credits : PyStr → Option Int) :
    ∀ (codes used : List PyStr),
      dedupCredits codes user_credits used =
        (userSumList user_credits (newCodes codes used), used ++ newCodes codes used)
  | [], used => by simp [dedupCredits, newCodes, userSumList]
  | c :: cs, used => by
    simp only [dedupCredits, newCodes]
    by_cases h : c ∈ used
    · rw [if_pos h, if_pos h, dedupCredits_eq user_credits cs used]
    · rw [if_neg h, if_neg h, dedupCredits_eq user_credits cs (used ++ [c])]
      simp [userSumList, List.append_assoc]

/-- `newCodes` over a concatenation: the second part is deduplicated
against everything the first part contributed. -/
theorem newCodes_append :
    ∀ (l1 l2 used : List PyStr),
      newCodes (l1 ++ l2) used =
        newCodes l1 used ++ newCodes l2 (used ++ newCodes l1 used)
  | [], l2, used => by simp [newCodes]
  | c :: l1, l2, used => by
    simp only [List.cons_append, List.append_eq, newCodes]
    by_cases h : c ∈ used
    · rw [if_pos h, if_pos h, newCodes_append l1 l2 used]
    · rw [if_neg h, if_neg h, newCodes_append l1 l2 (used ++ [c])]
      simp [List.append_assoc]

/-- Summing the per-section first-time credits equals crediting every
distinct code of the concatenated credited lists exactly once. -/
theorem firstTimeCredits_sum (user_credits : PyStr → Option Int) :
    ∀ (lists : List (List PyStr)) (seen : List PyStr),
      (firstTimeCredits lists user_credits seen).sum =
        userSumList user_credits (newCodes lists.flatten seen)
  | [], seen => by simp [firstTimeCredits, newCodes, userSumList]
  | l :: ls, seen => by
    simp only [firstTimeCredits, List.flatten_cons, List.sum_cons]
    rw [firstTimeCredits_sum user_credits ls (seen ++ newCodes l seen),
      newCodes_append l ls.flatten seen, userSumList_append]

/-- The section loop reports exactly the spec's first-time credits. -/
theorem runSections_reports (user_codes : List PyStr) (user_credits : PyStr → Option Int) :
    ∀ (secs : List SectionDef) (used : List PyStr),
      (runSections secs user_codes user_credits used).1.map (fun s => s.credits_earned) =
        firstTimeCredits
          (secs.map fun sec => (evalSection sec.rule user_codes user_credits).credited_codes)
          user_credits used
  | [], used => by simp [runSections, firstTimeCredits]
  | sec :: rest, used => by
    unfold runSections
    simp only [List.map_cons, firstTimeCredits,
      dedupCredits_eq user_credits (evalSection sec.rule user_codes user_credits).credited_codes used]
    rw [runSections_reports user_codes user_credits rest _]

/-- C1: cross-section credit deduplication — for a major present in the
catalog, the reported per-section `credits_earned` fields are exactly the
spec's first-time credits (a code's user credit value is added to the first
section, in declaration order, whose credited codes contain it, and to no
later one), and `major_credits_earned` credits every distinct code of the
whole evaluation exactly once. -/
theorem evaluate_major_cross_section_dedup (major_key : String)
    (planned : List PlannedCourse) (p : String × MajorDef)
    (hfind : MAJOR_REQUIREMENTS.find? (fun q => q.1 == major_key) = some p) :
    (evaluate_major major_key planned).map
        (fun r => r.sections.map fun s => s.credits_earned) =
      Except.ok (firstTimeCredits (creditedLists p.2 (build_user_catalog planned))
        (build_user_catalog planned).credits []) ∧
    (evaluate_major major_key planned).map (fun r => r.major_credits_earned) =
      Except.ok (userSumList (build_user_catalog planned).credits
        (newCodes (creditedLists p.2 (build_user_catalog planned)).flatten [])) := by
  unfold evaluate_major
  rw [hfind]
  constructor
  · simp only [Except.map]
    rw [runSections_reports]
    rfl
  · simp only [Except.map]
    rw [runSections_total, runSections_reports, firstTimeCredits_sum]
    rfl

/-- Witness for C1: `COMP SCI 407` is listed by both `software_hardware`
and `electives`; its 3 credits are counted once, in the earlier
`software_hardware` section (index 5), and the major total is 3. -/
theorem evaluate_major_cross_section_dedup_witness :
    MAJOR_REQUIREMENTS.find? (fun q => q.1 == "CS_LS") = some ("CS_LS", CS_LS) ∧
    (evaluate_major "CS_LS" [⟨some (pyCodes "COMP SCI 407"), some 3⟩]).map
        (fun r => r.sections.map fun s => s.credits_earned) =
      Except.ok [0, 0, 0, 0, 0, 3, 0, 0] ∧
    (evaluate_major "CS_LS" [⟨some (pyCodes "COMP SCI 407"), some 3⟩]).map
        (fun r => r.major_credits_earned) = Except.ok 3 := by
  refine ⟨by decide, ?_, ?_⟩
  · exact ((evaluate_major_cross_section_dedup "CS_LS"
      [⟨some (pyCodes "COMP SCI 407"), some 3⟩] ("CS_LS", CS_LS) (by decide)).1).trans
      (by decide)
  · exact ((evaluate_major_cross_section_dedup "CS_LS"
      [⟨some (pyCodes "COMP SCI 407"), some 3⟩] ("CS_LS", CS_LS) (by decide)).2).trans
      (by decide)

/-! ## ONE_OF evaluation (C2, C3) -/

theorem one_of_loop_nil (user_codes : List PyStr) (user_credits : PyStr → Option Int)
    (best : BestPartial) :
    one_of_loop [] user_codes user_credits best = one_of_finalize best user_credits := rfl

/-- A satisfied `COURSE` option returns immediately. -/
theorem one_of_loop_course_mem {rawCode : PyStr} {user_codes : List PyStr}
    (h : normalize_code rawCode ∈ user_codes) (credits : Option Int)
    (user_credits : PyStr → Option Int) (rest : List OneOfOption) (best : BestPartial) :
    one_of_loop (OneOfOption.course rawCode credits :: rest) user_codes user_credits best =
      { status := PyStatus.complete,
        taken := [⟨normalize_code rawCode, credits⟩],
        missing := [],
        credited_codes := [normalize_code rawCode],
        credits_earned := dictGet user_credits (normalize_code rawCode) (pyOrZero credits),
        selected_option := SelOpt.courseOpt (normalize_code rawCode) } := by
  simp [one_of_loop, h]

/-- An unsatisfied `COURSE` option only updates `best` via `bestStep`. -/
theorem one_of_loop_course_not_mem {rawCode : PyStr} {user_codes : List PyStr}
    (h : normalize_code rawCode ∉ user_codes) (credits : Option Int)
    (user_credits : PyStr → Option Int) (rest : List OneOfOption) (best : BestPartial) :
    one_of_loop (OneOfOption.course rawCode credits :: rest) user_codes user_credits best =
      one_of_loop rest user_codes user_credits
        (bestStep user_codes best (OneOfOption.course rawCode credits)) := by
  simp [one_of_loop, h, bestStep]

/-- A fully matched `ALL_OF` option returns immediately. -/
theorem one_of_loop_allOf_complete {items : List CourseRef} {user_codes : List PyStr}
    (h : (score_all_of items user_codes).missing = [])
    (user_credits : PyStr → Option Int) (rest : List OneOfOption) (best : BestPartial) :
    one_of_loop (OneOfOption.allOf items :: rest) user_codes user_credits best =
      { status := PyStatus.complete,
        taken := (score_all_of items user_codes).taken,
        missing := [],
        credited_codes := (score_all_of items user_codes).credited,
        credits_earned := ((score_all_of items user_codes).taken.map
          fun t => dictGet user_credits t.code (pyOrZero t.credits)).sum,
        selected_option := SelOpt.allOfOpt
          ((score_all_of items user_codes).taken.map (fun t => t.code)) } := by
  simp [one_of_loop, h]

/-- An incomplete `ALL_OF` option only updates `best` via `bestStep`. -/
theorem one_of_loop_allOf_incomplete {items : List CourseRef} {user_codes : List PyStr}
    (h : (score_all_of items user_codes).missing ≠ [])
    (user_credits : PyStr → Option Int) (rest : List OneOfOption) (best : BestPartial) :
    one_of_loop (OneOfOption.allOf items :: rest) user_codes user_credits best =
      one_of_loop rest user_codes user_credits
        (bestStep user_codes best (OneOfOption.allOf items)) := by
  simp [one_of_loop, h, bestStep]

/-- Scanning unsatisfiable options never returns early: it only folds
`bestStep` over `best`. -/
theorem one_of_loop_unsat (user_codes : List PyStr) (user_credits : PyStr → Option Int) :
    ∀ (opts rest : List OneOfOption) (best : BestPartial),
      (∀ o ∈ opts, ¬optSatisfied o user_codes) →
      one_of_loop (opts ++ rest) user_codes user_credits best =
        one_of_loop rest user_codes user_credits (opts.foldl (bestStep user_codes) best)
  | [], rest, best, _ => by simp
  | o :: opts, rest, best, h => by
    have ho : ¬optSatisfied o user_codes := h o (List.mem_cons_self _ _)
    have hrest : ∀ q ∈ opts, ¬optSatisfied q user_codes :=
      fun q hq => h q (List.mem_cons_of_mem o hq)
    cases o with
    | course rawCode credits =>
      have hmem : normalize_code rawCode ∉ user_codes := by
        simpa [optSatisfied] using ho
      rw [List.cons_append, one_of_loop_course_not_mem hmem, List.foldl_cons]
      exact one_of_loop_unsat user_codes user_credits opts rest _ hrest
    | allOf items =>
      have hmiss : (score_all_of items user_codes).missing ≠ [] := by
        simpa [optSatisfied, score_all_of] using ho
      rw [List.cons_append, one_of_loop_allOf_incomplete hmiss, List.foldl_cons]
      exact one_of_loop_unsat user_codes user_credits opts rest _ hrest

/-- Once a candidate with a score at least every remaining option's score
is held, `bestStep` never replaces it (the comparison is strict). -/
theorem foldl_bestStep_no_change (user_codes : List PyStr) :
    ∀ (opts : List OneOfOption) (best : BestPartial),
      0 ≤ best.matchCount →
      (∀ o ∈ opts, (optScore o user_codes : Int) ≤ best.matchCount) →
      opts.foldl (bestStep user_codes) best = best
  | [], _, _, _ => rfl
  | o :: opts, best, h0, h => by
    have ho := h o (List.mem_cons_self _ _)
    have hstep : bestStep user_codes best o = best := by
      cases o with
      | course rawCode credits =>
        simp only [bestStep]
        rw [if_neg (by omega)]
      | allOf items =>
        have ho' : ((score_all_of items user_codes).matchCount : Int) ≤ best.matchCount := by
          simpa [optScore] using ho
        simp only [bestStep]
        rw [if_neg (not_lt.mpr ho')]
    rw [List.foldl_cons, hstep]
    exact foldl_bestStep_no_change user_codes opts best h0
      (fun q hq => h q (List.mem_cons_of_mem o hq))

/-- Folding `bestStep` over options whose scores stay below a bound keeps
the candidate's match count below that bound. -/
theorem foldl_bestStep_lt (user_codes : List PyStr) (S : Int) :
    ∀ (opts : List OneOfOption) (best : BestPartial),
      best.matchCount < S →
      (∀ o ∈ opts, (optScore o user_codes : Int) < S) →
      (opts.foldl (bestStep user_codes) best).matchCount < S
  | [], best, hb, _ => hb
  | o :: opts, best, hb, h => by
    rw [List.foldl_cons]
    refine foldl_bestStep_lt user_codes S opts (bestStep user_codes best o) ?_
      (fun q hq => h q (List.mem_cons_of_mem o hq))
    have ho := h o (List.mem_cons_self _ _)
    cases o with
    | course rawCode credits =>
      simp only [bestStep]
      split_ifs with hc
      · simpa [optScore] using ho
      · exact hb
    | allOf items =>
      simp only [bestStep]
      split_ifs with hc
      · simpa [optScore] using ho
      · exact hb

/-- C2: ONE_OF short-circuit priority — when the scan reaches a `COURSE`
option whose normalized code the user has (no earlier option being fully
satisfiable), `eval_one_of` returns immediately with status `complete`,
that single course as `taken` and exactly that one code credited, whatever
the remaining options would match. -/
theorem eval_one_of_course_short_circuit (pre rest : List OneOfOption) (rawCode : PyStr)
    (credits : Option Int) (user_codes : List PyStr) (user_credits : PyStr → Option Int)
    (hpre : ∀ o ∈ pre, ¬optSatisfied o user_codes)
    (hc : normalize_code rawCode ∈ user_codes) :
    eval_one_of (pre ++ OneOfOption.course rawCode credits :: rest) user_codes user_credits =
      { status := PyStatus.complete,
        taken := [⟨normalize_code rawCode, credits⟩],
        missing := [],
        credited_codes := [normalize_code rawCode],
        credits_earned := dictGet user_credits (normalize_code rawCode) (pyOrZero credits),
        selected_option := SelOpt.courseOpt (normalize_code rawCode) } := by
  unfold eval_one_of
  rw [one_of_loop_unsat user_codes user_credits pre _ initialBest hpre,
    one_of_loop_course_mem hc]

/-- Witness for C2 (the spec's example): options `[COURSE A, ALL_OF [B, C]]`
with the user holding `A`, `B` and `C` select `A` alone, crediting only
`A`, although the second option would match two courses. -/
theorem eval_one_of_course_short_circuit_witness :
    (∀ o ∈ ([] : List OneOfOption), ¬optSatisfied o
      (build_user_catalog [⟨some (pyCodes "A"), some 3⟩, ⟨some (pyCodes "B"), some 3⟩,
        ⟨some (pyCodes "C"), some 3⟩]).codes) ∧
    eval_one_of
      [OneOfOption.course (pyCodes "A") (some 3),
       OneOfOption.allOf [⟨pyCodes "B", some 3⟩, ⟨pyCodes "C", some 3⟩]]
      (build_user_catalog [⟨some (pyCodes "A"), some 3⟩, ⟨some (pyCodes "B"), some 3⟩,
        ⟨some (pyCodes "C"), some 3⟩]).codes
      (build_user_catalog [⟨some (pyCodes "A"), some 3⟩, ⟨some (pyCodes "B"), some 3⟩,
        ⟨some (pyCodes "C"), some 3⟩]).credits =
      { status := PyStatus.complete,
        taken := [⟨pyCodes "A", some 3⟩],
        missing := [],
        credited_codes := [pyCodes "A"],
        credits_earned := 3,
        selected_option := SelOpt.courseOpt (pyCodes "A") } := by
  constructor
  · intro o ho
    simp at ho
  · exact (eval_one_of_course_short_circuit [] [OneOfOption.allOf [⟨pyCodes "B", some 3⟩,
      ⟨pyCodes "C", some 3⟩]] (pyCodes "A") (some 3) _ _ (by intro o ho; simp at ho)
      (by decide)).trans (by decide)

/-- C3: ONE_OF best-partial tie-break — when no option is fully
satisfiable, the result reports the taken/missing/credited sets of the
first option (in declaration order) attaining the highest matched-item
count (an unsatisfied `COURSE` option counting as 0 matches, able to seed
the candidate only while none exists, which the strict `>` comparison
realises), and the status is `missing` exactly when that best match count
is 0 and `in_progress` otherwise. -/
theorem eval_one_of_best_match (pre rest : List OneOfOption) (opt : OneOfOption)
    (user_codes : List PyStr) (user_credits : PyStr → Option Int)
    (hunsat : ∀ o ∈ pre ++ opt :: rest, ¬optSatisfied o user_codes)
    (hpre : ∀ o ∈ pre, optScore o user_codes < optScore opt user_codes)
    (hrest : ∀ o ∈ rest, optScore o user_codes ≤ optScore opt user_codes) :
    (eval_one_of (pre ++ opt :: rest) user_codes user_credits).taken =
      optTakenList opt user_codes ∧
    (eval_one_of (pre ++ opt :: rest) user_codes user_credits).missing =
      optMissingList opt user_codes ∧
    (eval_one_of (pre ++ opt :: rest) user_codes user_credits).credited_codes =
      optCreditedList opt user_codes ∧
    (eval_one_of (pre ++ opt :: rest) user_codes user_credits).status =
      (if optScore opt user_codes = 0 then PyStatus.missing else PyStatus.in_progress) := by
  have hpre' : ∀ o ∈ pre, ¬optSatisfied o user_codes :=
    fun o ho => hunsat o (List.mem_append_left _ ho)
  have hopt : ¬optSatisfied opt user_codes :=
    hunsat opt (List.mem_append_right _ (List.mem_cons_self _ _))
  have hrest' : ∀ o ∈ rest, ¬optSatisfied o user_codes :=
    fun o ho => hunsat o (List.mem_append_right _ (List.mem_cons_of_mem _ ho))
  have hb0 : (pre.foldl (bestStep user_codes) initialBest).matchCount <
      (optScore opt user_codes : Int) := by
    refine foldl_bestStep_lt user_codes _ pre initialBest ?_ ?_
    · have := Int.natCast_nonneg (optScore opt user_codes)
      show (-1 : Int) < _
      omega
    · intro o ho
      exact_mod_cast hpre o ho
  have hstep_eq : one_of_loop (opt :: rest) user_codes user_credits
        (pre.foldl (bestStep user_codes) initialBest) =
      one_of_loop rest user_codes user_credits
        (bestStep user_codes (pre.foldl (bestStep user_codes) initialBest) opt) := by
    cases opt with
    | course rawCode credits =>
      exact one_of_loop_course_not_mem (by simpa [optSatisfied] using hopt) _ _ _ _
    | allOf items =>
      exact one_of_loop_allOf_incomplete (by simpa [optSatisfied, score_all_of] using hopt) _ _ _
  have hbest1 : bestStep user_codes (pre.foldl (bestStep user_codes) initialBest) opt =
      { matchCount := (optScore opt user_codes : Int),
        taken := optTakenList opt user_codes,
        missing := optMissingList opt user_codes,
        credited := optCreditedList opt user_codes,
        selected_option := optSelected opt } := by
    cases opt with
    | course rawCode credits =>
      have hneg : (pre.foldl (bestStep user_codes) initialBest).matchCount < 0 := by
        simpa [optScore] using hb0
      simp [bestStep, hneg, optScore, optTakenList, optMissingList, optCreditedList, optSelected]
    | allOf items =>
      have hlt : (pre.foldl (bestStep user_codes) initialBest).matchCount <
          ((score_all_of items user_codes).matchCount : Int) := by
        simpa [optScore] using hb0
      simp [bestStep, hlt, optScore, optTakenList, optMissingList, optCreditedList, optSelected]
  have heval : eval_one_of (pre ++ opt :: rest) user_codes user_credits =
      one_of_finalize
        { matchCount := (optScore opt user_codes : Int),
          taken := optTakenList opt user_codes,
          missing := optMissingList opt user_codes,
          credited := optCreditedList opt user_codes,
          selected_option := optSelected opt } user_credits := by
    unfold eval_one_of
    rw [one_of_loop_unsat user_codes user_credits pre _ initialBest hpre', hstep_eq, hbest1,
      show rest = rest ++ [] from (List.append_nil rest).symm,
      one_of_loop_unsat user_codes user_credits rest [] _ hrest',
      foldl_bestStep_no_change user_codes rest _ (by simp) ?_,
      one_of_loop_nil]
    intro o ho
    show (optScore o user_codes : Int) ≤ (optScore opt user_codes : Int)
    exact_mod_cast hrest o (by simpa using ho)
  rw [heval]
  refine ⟨rfl, rfl, rfl, ?_⟩
  show (if ((optScore opt user_codes : Int)) = 0 then PyStatus.missing
    else if 0 < ((optScore opt user_codes : Int) : Int) then PyStatus.in_progress
    else PyStatus.missing) = _
  by_cases h0 : optScore opt user_codes = 0
  · simp [h0]
  · have hpos : (0 : Int) < (optScore opt user_codes : Int) := by
      have : 0 < optScore opt user_codes := Nat.pos_of_ne_zero h0
      exact_mod_cast this
    rw [if_neg (by exact_mod_cast h0), if_pos hpos, if_neg h0]

/-- Witness for C3: options `[ALL_OF [A, B], ALL_OF [C, D]]` with the user
holding only `C` — neither option is satisfiable, the second has the
strictly higher match count 1, so the result reports its taken/missing/
credited sets and status `in_progress`. -/
theorem eval_one_of_best_match_witness :
    (∀ o ∈ [OneOfOption.allOf [⟨pyCodes "A", some 3⟩, ⟨pyCodes "B", some 3⟩]] ++
        OneOfOption.allOf [⟨pyCodes "C", some 2⟩, ⟨pyCodes "D", some 3⟩] ::
          ([] : List OneOfOption),
      ¬optSatisfied o (build_user_catalog [⟨some (pyCodes "C"), some 2⟩]).codes) ∧
    (∀ o ∈ [OneOfOption.allOf [⟨pyCodes "A", some 3⟩, ⟨pyCodes "B", some 3⟩]],
      optScore o (build_user_catalog [⟨some (pyCodes "C"), some 2⟩]).codes <
        optScore (OneOfOption.allOf [⟨pyCodes "C", some 2⟩, ⟨pyCodes "D", some 3⟩])
          (build_user_catalog [⟨some (pyCodes "C"), some 2⟩]).codes) ∧
    (eval_one_of ([OneOfOption.allOf [⟨pyCodes "A", some 3⟩, ⟨pyCodes "B", some 3⟩]] ++
        OneOfOption.allOf [⟨pyCodes "C", some 2⟩, ⟨pyCodes "D", some 3⟩] :: [])
      (build_user_catalog [⟨some (pyCodes "C"), some 2⟩]).codes
      (build_user_catalog [⟨some (pyCodes "C"), some 2⟩]).credits).taken =
        [⟨pyCodes "C", some 2⟩] ∧
    (eval_one_of ([OneOfOption.allOf [⟨pyCodes "A", some 3⟩, ⟨pyCodes "B", some 3⟩]] ++
        OneOfOption.allOf [⟨pyCodes "C", some 2⟩, ⟨pyCodes "D", some 3⟩] :: [])
      (build_user_catalog [⟨some (pyCodes "C"), some 2⟩]).codes
      (build_user_catalog [⟨some (pyCodes "C"), some 2⟩]).credits).status =
        PyStatus.in_progress := by
  refine ⟨by decide, by decide, ?_, ?_⟩
  · exact ((eval_one_of_best_match
      [OneOfOption.allOf [⟨pyCodes "A", some 3⟩, ⟨pyCodes "B", some 3⟩]] []
      (OneOfOption.allOf [⟨pyCodes "C", some 2⟩, ⟨pyCodes "D", some 3⟩]) _ _
      (by decide) (by decide) (by decide)).1).trans (by decide)
  · exact ((eval_one_of_best_match
      [OneOfOption.allOf [⟨pyCodes "A", some 3⟩, ⟨pyCodes "B", some 3⟩]] []
      (OneOfOption.allOf [⟨pyCodes "C", some 2⟩, ⟨pyCodes "D", some 3⟩]) _ _
      (by decide) (by decide) (by decide)).2.2.2).trans (by decide)

/-! ## N_OF credit cap (C4) -/

/-- Adding fresh, pairwise-distinct elements to a set-as-list appends them. -/
theorem foldl_insertIfAbsent_new :
    ∀ (l acc : List PyStr), (∀ x ∈ l, x ∉ acc) → l.Nodup →
      l.foldl (fun acc x => insertIfAbsent x acc) acc = acc ++ l
  | [], acc, _, _ => by simp
  | c :: cs, acc, hnew, hnd => by
    have hc : c ∉ acc := hnew c (List.mem_cons_self _ _)
    have hins : insertIfAbsent c acc = acc ++ [c] := by simp [insertIfAbsent, hc]
    have hnew2 : ∀ x ∈ cs, x ∉ acc ++ [c] := by
      intro x hx hmem
      rcases List.mem_append.mp hmem with h1 | h1
      · exact hnew x (List.mem_cons_of_mem c hx) h1
      · rw [List.mem_singleton] at h1
        subst h1
        exact (List.nodup_cons.mp hnd).1 hx
    rw [List.foldl_cons, hins,
      foldl_insertIfAbsent_new cs (acc ++ [c]) hnew2 (List.Nodup.of_cons hnd)]
    simp

/-- A Python set built from a duplicate-free list, read back as a list, is
that list. -/
theorem dedupFirst_eq_self {l : List PyStr} (h : l.Nodup) : dedupFirst l = l := by
  unfold dedupFirst
  rw [foldl_insertIfAbsent_new l [] (by simp) h]
  simp

/-- C4: N_OF credit cap — only the first `n` present items (declaration
order) are credited: with at least `n` matches of distinct normalized
codes, `credited_codes` is exactly the code list of that slice and has
exactly `n` elements, `n_completed = min(|present|, n)`, and
`credits_earned` sums credits over the credited slice only. -/
theorem eval_n_of_cap (n : Nat) (items : List CourseRef) (user_codes : List PyStr)
    (user_credits : PyStr → Option Int)
    (hn : n ≤ (allOfTaken items user_codes).length)
    (hnd : (((allOfTaken items user_codes).take n).map (fun t => t.code)).Nodup) :
    (eval_n_of n items user_codes user_credits).credited_codes =
      ((allOfTaken items user_codes).take n).map (fun t => t.code) ∧
    (eval_n_of n items user_codes user_credits).credited_codes.length = n ∧
    (eval_n_of n items user_codes user_credits).n_completed =
      min (allOfTaken items user_codes).length n ∧
    (eval_n_of n items user_codes user_credits).credits_earned =
      (((allOfTaken items user_codes).take n).map
        fun t => dictGet user_credits t.code (pyOrZero t.credits)).sum := by
  have hcc : (eval_n_of n items user_codes user_credits).credited_codes =
      dedupFirst (((allOfTaken items user_codes).take n).map (fun t => t.code)) := rfl
  refine ⟨?_, ?_, rfl, rfl⟩
  · rw [hcc, dedupFirst_eq_self hnd]
  · rw [hcc, dedupFirst_eq_self hnd, List.length_map, List.length_take]
    omega

/-- Witness for C4 (the spec's example): `n = 2`, items `[A, B, C]`, user
has all three — exactly the first two are credited, `n_completed = 2`. -/
theorem eval_n_of_cap_witness :
    2 ≤ (allOfTaken [⟨pyCodes "A", some 3⟩, ⟨pyCodes "B", some 3⟩, ⟨pyCodes "C", some 3⟩]
      (build_user_catalog [⟨some (pyCodes "A"), some 3⟩, ⟨some (pyCodes "B"), some 3⟩,
        ⟨some (pyCodes "C"), some 3⟩]).codes).length ∧
    (eval_n_of 2 [⟨pyCodes "A", some 3⟩, ⟨pyCodes "B", some 3⟩, ⟨pyCodes "C", some 3⟩]
      (build_user_catalog [⟨some (pyCodes "A"), some 3⟩, ⟨some (pyCodes "B"), some 3⟩,
        ⟨some (pyCodes "C"), some 3⟩]).codes
      (build_user_catalog [⟨some (pyCodes "A"), some 3⟩, ⟨some (pyCodes "B"), some 3⟩,
        ⟨some (pyCodes "C"), some 3⟩]).credits).credited_codes =
      [pyCodes "A", pyCodes "B"] ∧
    (eval_n_of 2 [⟨pyCodes "A", some 3⟩, ⟨pyCodes "B", some 3⟩, ⟨pyCodes "C", some 3⟩]
      (build_user_catalog [⟨some (pyCodes "A"), some 3⟩, ⟨some (pyCodes "B"), some 3⟩,
        ⟨some (pyCodes "C"), some 3⟩]).codes
      (build_user_catalog [⟨some (pyCodes "A"), some 3⟩, ⟨some (pyCodes "B"), some 3⟩,
        ⟨some (pyCodes "C"), some 3⟩]).credits).credited_codes.length = 2 ∧
    (eval_n_of 2 [⟨pyCodes "A", some 3⟩, ⟨pyCodes "B", some 3⟩, ⟨pyCodes "C", some 3⟩]
      (build_user_catalog [⟨some (pyCodes "A"), some 3⟩, ⟨some (pyCodes "B"), some 3⟩,
        ⟨some (pyCodes "C"), some 3⟩]).codes
      (build_user_catalog [⟨some (pyCodes "A"), some 3⟩, ⟨some (pyCodes "B"), some 3⟩,
        ⟨some (pyCodes "C"), some 3⟩]).credits).n_completed = 2 := by
  refine ⟨by decide, ?_, ?_, ?_⟩
  · exact ((eval_n_of_cap 2
      [⟨pyCodes "A", some 3⟩, ⟨pyCodes "B", some 3⟩, ⟨pyCodes "C", some 3⟩] _ _
      (by decide) (by decide)).1).trans (by decide)
  · exact ((eval_n_of_cap 2
      [⟨pyCodes "A", some 3⟩, ⟨pyCodes "B", some 3⟩, ⟨pyCodes "C", some 3⟩] _ _
      (by decide) (by decide)).2.1).trans (by decide)
  · exact ((eval_n_of_cap 2
      [⟨pyCodes "A", some 3⟩, ⟨pyCodes "B", some 3⟩, ⟨pyCodes "C", some 3⟩] _ _
      (by decide) (by decide)).2.2.1).trans (by decide)

/-! ## Missing/empty course codes (C6) -/

/-- Counterexample to C6 as stated: `build_user_catalog` stringifies the
code first (`str(None) = "None"`), so a planned course with a null code
normalizes to `"NONE"`, not to the empty string. -/
theorem null_code_counterexample :
    (build_user_catalog [⟨none, none⟩]).codes = [pyCodes "NONE"] ∧
    pyCodes "NONE" ≠ ([] : PyStr) := by
  constructor
  · decide
  · decide

/-- Membership in the code set built by the catalog loop comes from the
starting set or from some planned course's normalized code. -/
theorem mem_build_aux :
    ∀ (planned : List PlannedCourse) (uc : UserCatalog) (k : PyStr),
      k ∈ (planned.foldl buildStep uc).codes →
      k ∈ uc.codes ∨ ∃ c ∈ planned, k = normalize_code (pyStr c.code)
  | [], _, _, h => Or.inl h
  | c :: planned, uc, k, h => by
    rw [List.foldl_cons] at h
    rcases mem_build_aux planned (buildStep uc c) k h with h1 | ⟨c2, hc2, hk⟩
    · by_cases hmem : k ∈ uc.codes
      · exact Or.inl hmem
      · right
        refine ⟨c, List.mem_cons_self _ _, ?_⟩
        have h2 : k ∈ insertIfAbsent (normalize_code (pyStr c.code)) uc.codes := h1
        unfold insertIfAbsent at h2
        split_ifs at h2
        · exact absurd h2 hmem
        · rcases List.mem_append.mp h2 with h3 | h3
          · exact absurd h3 hmem
          · simpa using h3
    · exact Or.inr ⟨c2, List.mem_cons_of_mem c hc2, hk⟩

/-- If no item of an ALL_OF section matches, nothing is taken and every
item is reported missing. -/
theorem eval_all_of_no_match :
    ∀ (items : List CourseRef) (user_codes : List PyStr),
      (∀ it ∈ items, normalize_code it.code ∉ user_codes) →
      allOfTaken items user_codes = [] ∧
      allOfMissing items user_codes =
        items.map (fun it => ⟨normalize_code it.code, it.credits⟩)
  | [], _, _ => ⟨rfl, rfl⟩
  | it :: items, user_codes, h => by
    have hit : normalize_code it.code ∉ user_codes := h it (List.mem_cons_self _ _)
    have hrest := eval_all_of_no_match items user_codes
      (fun q hq => h q (List.mem_cons_of_mem it hq))
    constructor
    · simp [allOfTaken, hit, allOfTaken] at hrest ⊢
      exact hrest.1
    · simp [allOfMissing, hit] at hrest ⊢
      exact hrest.2

/-- C6 (amended): a planned course with an empty code normalizes to the
empty string; a null code is stringified to `"None"` first and normalizes
to `"NONE"` (not the empty string); neither value ever equals a catalog
rule item's normalized code, so such entries never match any rule item and
the items they would have satisfied appear in `missing` (shown for the
ALL_OF sections).  (A course record with no `code` key at all would raise
a `KeyError` in Python and is outside the model.) -/
theorem empty_code_never_matches :
    normalize_code (pyStr (some [])) = [] ∧
    normalize_code (pyStr none) = pyCodes "NONE" ∧
    (∀ (planned : List PlannedCourse),
      (∀ c ∈ planned, c.code = none ∨ c.code = some []) →
      ∀ k ∈ (build_user_catalog planned).codes, k = [] ∨ k = pyCodes "NONE") ∧
    (∀ p ∈ MAJOR_REQUIREMENTS, ∀ code ∈ majorItemCodes p.2,
      normalize_code code ≠ [] ∧ normalize_code code ≠ pyCodes "NONE") ∧
    (∀ (planned : List PlannedCourse),
      (∀ c ∈ planned, c.code = none ∨ c.code = some []) →
      ∀ p ∈ MAJOR_REQUIREMENTS, ∀ sec ∈ p.2.sections, ∀ items : List CourseRef,
        sec.rule = SectionRule.allOf items →
        (eval_all_of items (build_user_catalog planned).codes
          (build_user_catalog planned).credits).taken = [] ∧
        (eval_all_of items (build_user_catalog planned).codes
          (build_user_catalog planned).credits).missing =
          items.map (fun it => ⟨normalize_code it.code, it.credits⟩)) := by
  have hbuild : ∀ (planned : List PlannedCourse),
      (∀ c ∈ planned, c.code = none ∨ c.code = some []) →
      ∀ k ∈ (build_user_catalog planned).codes, k = [] ∨ k = pyCodes "NONE" := by
    intro planned hpl k hk
    rcases mem_build_aux planned _ k hk with h1 | ⟨c, hc, hk2⟩
    · simp at h1
    · rcases hpl c hc with h2 | h2 <;> rw [h2] at hk2
      · exact Or.inr (by rw [hk2]; decide)
      · exact Or.inl (by rw [hk2]; decide)
  have hcat : ∀ p ∈ MAJOR_REQUIREMENTS, ∀ code ∈ majorItemCodes p.2,
      normalize_code code ≠ [] ∧ normalize_code code ≠ pyCodes "NONE" := by decide
  refine ⟨by decide, by decide, hbuild, hcat, ?_⟩
  intro planned hpl p hp sec hsec items hrule
  have hnomatch : ∀ it ∈ items, normalize_code it.code ∉
      (build_user_catalog planned).codes := by
    intro it hit hmem
    have hcode : it.code ∈ majorItemCodes p.2 := by
      unfold majorItemCodes
      refine List.mem_flatMap.mpr ⟨sec, hsec, ?_⟩
      rw [hrule]
      exact List.mem_map.mpr ⟨it, hit, rfl⟩
    have hne := hcat p hp it.code hcode
    rcases hbuild planned hpl _ hmem with h1 | h1
    · exact hne.1 h1
    · exact hne.2 h1
  have h := eval_all_of_no_match items (build_user_catalog planned).codes hnomatch
  exact ⟨h.1, h.2⟩

/-- Witness for C6 (amended): a user list holding one null-coded and one
empty-coded course matches nothing in the `basic_cs` ALL_OF section of the
CS major: nothing is taken and all five items are missing. -/
theorem empty_code_never_matches_witness :
    (∀ c ∈ [PlannedCourse.mk none none, PlannedCourse.mk (some []) (some 3)],
      c.code = none ∨ c.code = some []) ∧
    (eval_all_of
      [⟨pyCodes "MATH/COMP SCI 240", some 3⟩,
       ⟨pyCodes "COMP SCI/E C E 252", some 3⟩,
       ⟨pyCodes "COMP SCI 300", some 3⟩,
       ⟨pyCodes "COMP SCI/E C E 354", some 3⟩,
       ⟨pyCodes "COMP SCI 400", some 3⟩]
      (build_user_catalog [PlannedCourse.mk none none,
        PlannedCourse.mk (some []) (some 3)]).codes
      (build_user_catalog [PlannedCourse.mk none none,
        PlannedCourse.mk (some []) (some 3)]).credits).taken = [] := by
  constructor
  · intro c hc
    rcases List.mem_cons.mp hc with rfl | hc
    · exact Or.inl rfl
    · rcases List.mem_cons.mp hc with rfl | hc
      · exact Or.inr rfl
      · simp at hc
  · exact (empty_code_never_matches.2.2.2.2
      [PlannedCourse.mk none none, PlannedCourse.mk (some []) (some 3)]
      (by rintro c hc
          rcases List.mem_cons.mp hc with rfl | hc
          · exact Or.inl rfl
          · rcases List.mem_cons.mp hc with rfl | hc
            · exact Or.inr rfl
            · simp at hc)
      ("CS_LS", CS_LS) (by decide)
      { id := "basic_cs", title := some "Basic Computer Sciences",
        rule := SectionRule.allOf
          [ ⟨pyCodes "MATH/COMP SCI 240", some 3⟩,
            ⟨pyCodes "COMP SCI/E C E 252", some 3⟩,
            ⟨pyCodes "COMP SCI 300", some 3⟩,
            ⟨pyCodes "COMP SCI/E C E 354", some 3⟩,
            ⟨pyCodes "COMP SCI 400", some 3⟩ ] }
      (by decide)
      [ ⟨pyCodes "MATH/COMP SCI 240", some 3⟩,
        ⟨pyCodes "COMP SCI/E C E 252", some 3⟩,
        ⟨pyCodes "COMP SCI 300", some 3⟩,
        ⟨pyCodes "COMP SCI/E C E 354", some 3⟩,
        ⟨pyCodes "COMP SCI 400", some 3⟩ ]
      rfl).1

/-! ## UserCatalog key agreement (C9) -/

theorem mem_insertIfAbsent (k x : PyStr) (l : List PyStr) :
    k ∈ insertIfAbsent x l ↔ k ∈ l ∨ k = x := by
  unfold insertIfAbsent
  split_ifs with h
  · constructor
    · exact Or.inl
    · rintro (h1 | rfl)
      · exact h1
      · exact h
  · simp

/-- The catalog loop keeps `user_codes` and the key set of `user_credits`
in agreement. -/
theorem build_aux_key_agreement :
    ∀ (planned : List PlannedCourse) (uc : UserCatalog),
      (∀ k, k ∈ uc.codes ↔ uc.credits k ≠ none) →
      ∀ k, k ∈ (planned.foldl buildStep uc).codes ↔
        (planned.foldl buildStep uc).credits k ≠ none
  | [], _, h => h
  | c :: planned, uc, h => by
    rw [List.foldl_cons]
    refine build_aux_key_agreement planned (buildStep uc c) ?_
    intro k
    show k ∈ insertIfAbsent (normalize_code (pyStr c.code)) uc.codes ↔
      (if k = normalize_code (pyStr c.code) then some (pyFloat c.credits)
        else uc.credits k) ≠ none
    rw [mem_insertIfAbsent]
    split_ifs with hk
    · simp [hk]
    · simp [hk, h k]

/-- A taken entry's code was found in `user_codes`. -/
theorem mem_allOfTaken_code {t : CourseRef} {items : List CourseRef}
    {user_codes : List PyStr} (h : t ∈ allOfTaken items user_codes) :
    t.code ∈ user_codes := by
  unfold allOfTaken at h
  obtain ⟨it, _, heq⟩ := List.mem_filterMap.mp h
  by_cases hmem : normalize_code it.code ∈ user_codes
  · rw [if_pos hmem] at heq
    obtain rfl := Option.some.inj heq
    exact hmem
  · rw [if_neg hmem] at heq
    exact absurd heq (by simp)

/-- When the looked-up code has an entry, `dict.get`'s fallback is dead:
the result is the user's own credit value. -/
theorem dictGet_of_mem {user_codes : List PyStr} {user_credits : PyStr → Option Int}
    (hkey : ∀ k, k ∈ user_codes ↔ user_credits k ≠ none)
    {code : PyStr} (h : code ∈ user_codes) (fb : Int) :
    dictGet user_credits code fb = (user_credits code).getD 0 := by
  have hne := (hkey code).mp h
  unfold dictGet
  cases hc : user_credits code with
  | none => exact absurd hc hne
  | some v => simp [hc]

/-- Credit sums over taken entries whose codes are all in `user_codes`
reduce to the user's own credit values, whatever the fallback. -/
theorem sum_dictGet_eq_userSum {user_codes : List PyStr}
    {user_credits : PyStr → Option Int}
    (hkey : ∀ k, k ∈ user_codes ↔ user_credits k ≠ none)
    (taken : List CourseRef) (fb : CourseRef → Int)
    (h : ∀ t ∈ taken, t.code ∈ user_codes) :
    (taken.map fun t => dictGet user_credits t.code (fb t)).sum =
      userSumList user_credits (taken.map fun t => t.code) := by
  unfold userSumList
  rw [List.map_map]
  exact congrArg List.sum (List.map_congr_left
    (fun t ht => dictGet_of_mem hkey (h t ht) (fb t)))

/-- The ONE_OF loop's credit sum always uses the user's own credit values
when the catalog keys agree and the candidate's taken codes are all held. -/
theorem one_of_loop_user_credits {user_codes : List PyStr}
    {user_credits : PyStr → Option Int}
    (hkey : ∀ k, k ∈ user_codes ↔ user_credits k ≠ none) :
    ∀ (options : List OneOfOption) (best : BestPartial),
      (∀ t ∈ best.taken, t.code ∈ user_codes) →
      (one_of_loop options user_codes user_credits best).credits_earned =
        userSumList user_credits
          ((one_of_loop options user_codes user_credits best).taken.map fun t => t.code)
  | [], best, hbest => by
    rw [one_of_loop_nil]
    exact sum_dictGet_eq_userSum hkey best.taken _ hbest
  | OneOfOption.course rawCode credits :: rest, best, hbest => by
    by_cases hc : normalize_code rawCode ∈ user_codes
    · rw [one_of_loop_course_mem hc]
      show dictGet user_credits (normalize_code rawCode) (pyOrZero credits) =
        userSumList user_credits [normalize_code rawCode]
      rw [dictGet_of_mem hkey hc]
      simp [userSumList]
    · rw [one_of_loop_course_not_mem hc]
      refine one_of_loop_user_credits hkey rest _ ?_
      show ∀ t ∈ (bestStep user_codes best (OneOfOption.course rawCode credits)).taken,
        t.code ∈ user_codes
      simp only [bestStep]
      split_ifs
      · intro t ht
        simp at ht
      · exact hbest
  | OneOfOption.allOf items :: rest, best, hbest => by
    by_cases hc : (score_all_of items user_codes).missing = []
    · rw [one_of_loop_allOf_complete hc]
      exact sum_dictGet_eq_userSum hkey (score_all_of items user_codes).taken _
        (fun t ht => mem_allOfTaken_code ht)
    · rw [one_of_loop_allOf_incomplete hc]
      refine one_of_loop_user_credits hkey rest _ ?_
      show ∀ t ∈ (bestStep user_codes best (OneOfOption.allOf items)).taken,
        t.code ∈ user_codes
      simp only [bestStep]
      split_ifs
      · exact fun t ht => mem_allOfTaken_code ht
      · exact hbest

/-- C9: the `user_codes` set built by `build_user_catalog` is exactly the
key set of the `user_credits` map; consequently every evaluator's
`credits_earned` over taken courses is the sum of the user's own credit
values — the fallback to the rule item's declared credit value is never
exercised for a taken course. -/
theorem user_catalog_key_agreement :
    (∀ (planned : List PlannedCourse) (k : PyStr),
      k ∈ (build_user_catalog planned).codes ↔
        (build_user_catalog planned).credits k ≠ none) ∧
    (∀ (planned : List PlannedCourse) (items : List CourseRef),
      (eval_all_of items (build_user_catalog planned).codes
          (build_user_catalog planned).credits).credits_earned =
        userSumList (build_user_catalog planned).credits
          ((eval_all_of items (build_user_catalog planned).codes
            (build_user_catalog planned).credits).taken.map fun t => t.code)) ∧
    (∀ (planned : List PlannedCourse) (options : List OneOfOption),
      (eval_one_of options (build_user_catalog planned).codes
          (build_user_catalog planned).credits).credits_earned =
        userSumList (build_user_catalog planned).credits
          ((eval_one_of options (build_user_catalog planned).codes
            (build_user_catalog planned).credits).taken.map fun t => t.code)) ∧
    (∀ (planned : List PlannedCourse) (n : Nat) (items : List CourseRef),
      (eval_n_of n items (build_user_catalog planned).codes
          (build_user_catalog planned).credits).credits_earned =
        userSumList (build_user_catalog planned).credits
          (((eval_n_of n items (build_user_catalog planned).codes
            (build_user_catalog planned).credits).taken.take n).map fun t => t.code)) := by
  have hkey : ∀ (planned : List PlannedCourse) (k : PyStr),
      k ∈ (build_user_catalog planned).codes ↔
        (build_user_catalog planned).credits k ≠ none := by
    intro planned
    exact build_aux_key_agreement planned _ (by simp)
  refine ⟨hkey, ?_, ?_, ?_⟩
  · intro planned items
    exact sum_dictGet_eq_userSum (hkey planned) _ _
      (fun t ht => mem_allOfTaken_code ht)
  · intro planned options
    exact one_of_loop_user_credits (hkey planned) options initialBest (by simp [initialBest])
  · intro planned n items
    exact sum_dictGet_eq_userSum (hkey planned) _ _
      (fun t ht => mem_allOfTaken_code (List.take_subset n _ ht))

end DegreePlanner
